import Mathlib

/-!
Verification of the ClearPath RAG assistant core: query classification,
tier resolution, faithfulness evaluation, and the frontend streaming
delivery loop (`frontend/src/App.jsx`).  The backend Python modules
(`backend/app/router.py`, `evaluator.py`, `main.py`) are not part of the
provided sources, so the classifier, tier resolver and evaluator are
modelled from the specification; the streaming/UI state logic is embedded
directly from `App.jsx`.
-/

namespace ClearPath

/-- Model tier: each value is bound to one model identifier
(fast = llama-3.1-8b-instant, complex = llama-3.3-70b-versatile). -/
inductive Tier where
  | fast
  | complex
deriving DecidableEq, Repr

/-- Character-list prefix match: `headMatch pat s` is true when `pat`
occurs at the head of `s`. -/
def headMatch : List Char → List Char → Bool
  | [], _ => true
  | _ :: _, [] => false
  | p :: ps, c :: cs => p == c && headMatch ps cs

/-- Substring occurrence over character lists. -/
def occursIn (pat : List Char) : List Char → Bool
  | [] => headMatch pat []
  | c :: cs => headMatch pat (c :: cs) || occursIn pat cs

/-- Containment test of a pattern string in a character text
(the "contains" of the classifier rules). -/
def strContains (t : List Char) (pat : String) : Bool :=
  occursIn pat.data t

/-- Modelled from the spec: the classifier evaluates rules against the
normalized (lower-cased, trimmed) text (`backend/app/router.py` is not in
the provided sources).  Rendered as a character list so that every
operation is structurally recursive. -/
def normalize (s : String) : List Char :=
  (((s.data.dropWhile Char.isWhitespace).reverse.dropWhile
      Char.isWhitespace).reverse).map Char.toLower

/-- Splitter for `words`: accumulates the current word in reverse. -/
def splitWsAux : List Char → List Char → List (List Char)
  | [], acc => [acc.reverse]
  | c :: cs, acc =>
    if c.isWhitespace then acc.reverse :: splitWsAux cs []
    else splitWsAux cs (c :: acc)

/-- Words of a text: maximal whitespace-free runs. -/
def words (t : List Char) : List (List Char) :=
  (splitWsAux t []).filter (fun w => w ≠ [])

/-- Word count of a text. -/
def wordCount (t : List Char) : Nat :=
  (words t).length

/-- Number of question marks in the text. -/
def questionCount (t : List Char) : Nat :=
  t.count '?'

/-- Modelled from the spec: the catalogued complex-intent keyword set
(the full lexicon lives in the missing `backend/app/router.py`; the spec
instructs to preserve exactly the catalogued examples). -/
def complexKeywords : List String :=
  ["compare", "explain", "why", "how does", "analyze", "trade-off"]

/-- Modelled from the spec: the catalogued comparison terms. -/
def comparisonWords : List String :=
  ["vs", "better", "worse", "or", "compared to", "differ"]

/-- Modelled from the spec: the catalogued negation terms. -/
def negationWords : List String :=
  ["not", "don\x27t", "can\x27t", "won\x27t"]

/-- Modelled from the spec: the catalogued clause conjunctions. -/
def clauseConjunctions : List String :=
  ["however", "but", "although", "whereas"]

/-- Modelled from the spec: the catalogued multi-entity terms. -/
def multiEntityWords : List String :=
  ["and", "both", "all", "each"]

/-- Rule 1 (+2): word count ≥ 15. -/
def signalLong (t : List Char) : Bool :=
  15 ≤ wordCount t

/-- Rule 2 (+2): contains a complex-intent keyword. -/
def signalKeyword (t : List Char) : Bool :=
  complexKeywords.any (fun k => strContains t k)

/-- Rule 3 (+1): count of question marks ≥ 2. -/
def signalMultiQ (t : List Char) : Bool :=
  2 ≤ questionCount t

/-- Rule 4 (+1): contains a comparison term. -/
def signalComparison (t : List Char) : Bool :=
  comparisonWords.any (fun k => strContains t k)

/-- Rule 5 (+1): contains a question mark and a negation term. -/
def signalNegation (t : List Char) : Bool :=
  (1 ≤ questionCount t) && negationWords.any (fun k => strContains t k)

/-- Rule 6 (+1): contains a semicolon, an em-dash, or a clause conjunction. -/
def signalSubclause (t : List Char) : Bool :=
  strContains t ";" || strContains t "—" ||
    clauseConjunctions.any (fun k => strContains t k)

/-- Rule 7 (+1): contains a multi-entity term and word count ≥ 8. -/
def signalMulti (t : List Char) : Bool :=
  multiEntityWords.any (fun k => strContains t k) && 8 ≤ wordCount t

/-- The seven rule indicators of the normalized text, in table order. -/
def firedSignals (t : List Char) : List Bool :=
  [signalLong t, signalKeyword t, signalMultiQ t, signalComparison t,
   signalNegation t, signalSubclause t, signalMulti t]

/-- Number of rules that fire on the normalized text. -/
def firedCount (t : List Char) : Nat :=
  (firedSignals t).count true

/-- Modelled from the spec: the additive score over the seven rules
(`backend/app/router.py` is not in the provided sources). -/
def score (t : List Char) : Nat :=
  (if signalLong t then 2 else 0) + (if signalKeyword t then 2 else 0) +
  (if signalMultiQ t then 1 else 0) + (if signalComparison t then 1 else 0) +
  (if signalNegation t then 1 else 0) + (if signalSubclause t then 1 else 0) +
  (if signalMulti t then 1 else 0)

/-- Modelled from the spec: `classify(text) -> (score, tier)` with the
threshold rule `score ≥ 3 → complex`, else `fast`. -/
def classify (text : String) : Nat × Tier :=
  let t := normalize text
  (score t, if 3 ≤ score t then Tier.complex else Tier.fast)

/-- A retrieved chunk: document id, page, raw text, relevance score. -/
structure RetrievedChunk where
  document : String
  page : Nat
  text : String
  relevanceScore : Rat
deriving DecidableEq, Repr

/-- Number of distinct document identifiers among retrieved chunks. -/
def distinctDocs (chunks : List RetrievedChunk) : Nat :=
  ((chunks.map (fun c => c.document)).dedup).length

/-- Modelled from the spec: `resolve(initial_tier, retrieved_chunks) ->
final_tier` with the upgrade rule — if the initial tier is fast and the
distinct retrieved documents number at least 3, upgrade to complex
(the resolver lives in the missing backend sources). -/
def resolve (initial : Tier) (chunks : List RetrievedChunk) : Tier :=
  if initial = Tier.fast ∧ 3 ≤ distinctDocs chunks then Tier.complex
  else initial

/-- Evaluator flags attached to a completed generation result. -/
inductive Flag where
  | noContext
  | refusal
  | lowGrounding
deriving DecidableEq, Repr

/-- The low-grounding similarity threshold 0.35. -/
def groundingThreshold : Rat := 35 / 100

/-- Modelled from the spec: catalogued refusal phrases (a fixed heuristic
pattern match; the exact pattern list lives in the missing
`backend/app/evaluator.py`). -/
def refusalPhrases : List String :=
  ["i don\x27t know", "could not find", "not covered in our documentation"]

/-- Modelled from the spec: `evaluate(answer_text, context_chunks) -> set
of flags` (`backend/app/evaluator.py` is not in the provided sources).
The cosine similarity between the answer embedding and the concatenated
context embedding is computed by the external embedding collaborator and
consumed here as the `similarity` argument. -/
def evaluate (answer : String) (contextChunks : List RetrievedChunk)
    (similarity : Rat) : List Flag :=
  (if contextChunks.isEmpty then [Flag.noContext] else []) ++
  (if refusalPhrases.any (fun p => strContains (normalize answer) p)
    then [Flag.refusal] else []) ++
  (if similarity < groundingThreshold then [Flag.lowGrounding] else [])

/-- The error taxonomy of the core (spec §7). -/
inductive CoreError where
  | retrievalUnavailable
  | backendTimeout
  | backendError
deriving DecidableEq, Repr

/-- Modelled from the spec: `RetrievalUnavailable` degrades gracefully —
generation proceeds with zero chunks; a successful retrieval supplies its
chunks. -/
def chunksAfterRetrieval :
    Except CoreError (List RetrievedChunk) → List RetrievedChunk
  | Except.ok cs => cs
  | Except.error _ => []

/-- Modelled from the spec: the post-generation audit of a turn whose
retrieval step may have failed — the turn still completes and the answer
is graded against the chunks that retrieval actually produced. -/
def turnFlags (retrieval : Except CoreError (List RetrievedChunk))
    (answer : String) (similarity : Rat) : List Flag :=
  evaluate answer (chunksAfterRetrieval retrieval) similarity

/-- A source shown with an assistant answer (`sources` array of the
response, App.jsx). -/
structure Source where
  document : String
  page : Nat
  relevance_score : Rat
deriving DecidableEq, Repr

/-- Response metadata (the `metadata` object of the `/query` response). -/
structure Meta where
  model_used : String
  classification : String
  input_tokens : Nat
  output_tokens : Nat
  latency_ms : Nat
  chunks_retrieved : Nat
  evaluator_flags : List String
deriving DecidableEq, Repr

/-- Payload of the terminal `done` stream event (App.jsx: `doneEvent`). -/
structure DoneData where
  metadata : Meta
  sources : List Source
  conversation_id : String
deriving DecidableEq, Repr

/-- A parsed upstream SSE event (App.jsx lines 197–206): `token`, `done`,
`error`, or a JSON value of some other shape. -/
inductive UpstreamEvent where
  | token (content : String)
  | done (d : DoneData)
  | error (content : String)
  | other
deriving DecidableEq, Repr

/-- State accumulated by the `sendMessage` read loop: the token queue fed
to the drain interval and the pending `done` payload. -/
structure StreamState where
  tokenQueue : List String
  doneEvent : Option DoneData
deriving DecidableEq, Repr

/-- Initial read-loop state (App.jsx lines 102–103). -/
def initialStreamState : StreamState := ⟨[], none⟩

/-- One iteration of the SSE line loop (App.jsx lines 191–210).  `parse`
stands for `JSON.parse`, returning `none` when the fragment cannot be
parsed.  Faithful to the source: the entire dispatch sits inside the
`try` whose `catch` skips the line, so a parse failure leaves the state
unchanged — and so does an `error` event, because its `throw` is caught
by that same local `catch`. -/
def handleLine (parse : String → Option UpstreamEvent) (st : StreamState)
    (line : String) : StreamState :=
  if headMatch "data: ".data line.data then
    let jsonStr := String.mk (line.data.drop 6)
    if jsonStr = "" then st
    else
      match parse jsonStr with
      | none => st
      | some (UpstreamEvent.token c) =>
          { st with tokenQueue := st.tokenQueue ++ [c] }
      | some (UpstreamEvent.done d) => { st with doneEvent := some d }
      | some (UpstreamEvent.error _) => st
      | some UpstreamEvent.other => st
  else st

/-- The read loop over a whole upstream line sequence. -/
def processLines (parse : String → Option UpstreamEvent)
    (lines : List String) : StreamState :=
  lines.foldl (handleLine parse) initialStreamState

/-- A chat message entry as kept in the `messages` React state. -/
structure ChatMsg where
  role : String
  content : String
  streaming : Bool := false
  isError : Bool := false
  metadata : Option Meta := none
  sources : Option (List Source) := none
deriving DecidableEq, Repr

/-- The user entry appended at the start of a turn (App.jsx line 93). -/
def userEntry (q : String) : ChatMsg :=
  { role := "user", content := q }

/-- The empty assistant entry appended right after (App.jsx line 98). -/
def streamingEntry : ChatMsg :=
  { role := "assistant", content := "", streaming := true }

/-- The fresh assistant entry written by the error path (App.jsx
lines 223–227). -/
def errorEntry (e : String) : ChatMsg :=
  { role := "assistant", content := "⚠️ Error: " ++ e, isError := true }

/-- The `updated[updated.length - 1] = f(last)` pattern used by every
in-turn `setMessages` updater (App.jsx lines 116–124 and 130–140). -/
def updateLast (f : ChatMsg → ChatMsg) (l : List ChatMsg) : List ChatMsg :=
  match l.getLast? with
  | none => l
  | some m => l.dropLast ++ [f m]

/-- The error-path updater (App.jsx lines 219–230): replace the last
entry with a fresh error entry, but only when it is still streaming. -/
def replaceLastIfStreaming (e : String) (l : List ChatMsg) : List ChatMsg :=
  match l.getLast? with
  | none => l
  | some m => if m.streaming then l.dropLast ++ [errorEntry e] else l

/-- The three kinds of `setMessages` updates issued during a turn after
the two initial appends. -/
inductive TurnUpdate where
  | tokenUpd (t : String)
  | finalizeUpd (d : DoneData)
  | errorUpd (e : String)

/-- Application of one in-turn update to the message list, from the
corresponding `setMessages` callbacks in App.jsx. -/
def applyUpdate : TurnUpdate → List ChatMsg → List ChatMsg
  | TurnUpdate.tokenUpd t, l =>
      updateLast (fun m => { m with content := m.content ++ t }) l
  | TurnUpdate.finalizeUpd d, l =>
      updateLast (fun m =>
        { m with streaming := false, metadata := some d.metadata,
                 sources := some d.sources }) l
  | TurnUpdate.errorUpd e, l => replaceLastIfStreaming e l

/-- A sequence of in-turn updates applied in order. -/
def applyUpdates (us : List TurnUpdate) (l : List ChatMsg) : List ChatMsg :=
  us.foldl (fun acc u => applyUpdate u acc) l

/-- Net UI effect of a turn whose read loop ended without a thrown
exception: the drain interval delivers every queued token in order and
then finalizes the last entry exactly when a `done` payload was recorded
(App.jsx lines 109–161). -/
def turnOutcome (st : StreamState) (msgs : List ChatMsg) : List ChatMsg :=
  let afterTokens := applyUpdates (st.tokenQueue.map TurnUpdate.tokenUpd) msgs
  match st.doneEvent with
  | some d => applyUpdate (TurnUpdate.finalizeUpd d) afterTokens
  | none => afterTokens

/-- State of the token-drain machinery of one `sendMessage` turn
(App.jsx lines 101–161): the queue, the producer flags, the interval
status, and what the caller has observed (`delivered`, `doneCount`). -/
structure DrainState where
  tokenQueue : List String
  doneEvent : Option DoneData
  streamFinished : Bool
  draining : Bool
  completed : Bool
  delivered : List String
  doneCount : Nat
deriving DecidableEq, Repr

/-- Initial drain state of a turn. -/
def drainInit : DrainState :=
  { tokenQueue := [], doneEvent := none, streamFinished := false,
    draining := false, completed := false, delivered := [], doneCount := 0 }

/-- Atomic happenings of a turn: a token fragment arrives, the `done`
payload arrives, the upstream read loop ends, or the drain interval
fires once. -/
inductive Step where
  | arrive (content : String)
  | arriveDone (d : DoneData)
  | finish
  | tick
deriving DecidableEq, Repr

/-- Whether a step is a drain-interval firing. -/
def Step.isTick : Step → Bool
  | Step.tick => true
  | _ => false

/-- One step of the drain machinery, from App.jsx: a token push also
starts the interval if it is not running (lines 200–201); the loop end
sets `streamFinished` and starts the interval if needed (lines 213–214);
an interval firing delivers the queue head, or — only once the queue is
empty and the stream has finished — clears the interval and emits the
finalization exactly when a `done` payload is present (lines 113–160). -/
def step (st : DrainState) : Step → DrainState
  | Step.arrive c =>
      { st with tokenQueue := st.tokenQueue ++ [c], draining := true }
  | Step.arriveDone d => { st with doneEvent := some d }
  | Step.finish => { st with streamFinished := true, draining := true }
  | Step.tick =>
      if !st.draining || st.completed then st
      else
        match st.tokenQueue with
        | c :: rest =>
            { st with tokenQueue := rest, delivered := st.delivered ++ [c] }
        | [] =>
            if st.streamFinished then
              { st with completed := true,
                        doneCount := st.doneCount +
                          (if st.doneEvent.isSome then 1 else 0) }
            else st

/-- Run a schedule of steps from a state. -/
def exec (sched : List Step) (st : DrainState) : DrainState :=
  sched.foldl step st

/-- Keep ticking until the interval clears itself, with enough fuel. -/
def settleAux : Nat → DrainState → DrainState
  | 0, st => st
  | n + 1, st => if st.completed then st else settleAux n (step st Step.tick)

/-- After the schedule, the interval keeps firing until it completes. -/
def settle (st : DrainState) : DrainState :=
  settleAux (st.tokenQueue.length + 1) st

/-- The producer part of a schedule: every step that is not an interval
firing. -/
def nonTick (sched : List Step) : List Step :=
  sched.filter (fun s => !s.isTick)

/-- A schedule is valid for an upstream of fragments `toks` and payload
`d` when its producer part is exactly the fragments in order, then the
`done` payload, then the end of the stream — interval firings may be
interleaved arbitrarily. -/
def ValidSchedule (toks : List String) (d : DoneData)
    (sched : List Step) : Prop :=
  nonTick sched = toks.map Step.arrive ++ [Step.arriveDone d, Step.finish]

/-- Invariant of the drain machinery, indexed by the producer steps still
to come: before the `done` payload, while waiting for the stream end, and
after the stream end (not yet / already completed). -/
def Phase (toks : List String) (d : DoneData) (st : DrainState)
    (rest : List Step) : Prop :=
  (∃ pend, rest = pend.map Step.arrive ++ [Step.arriveDone d, Step.finish] ∧
    st.streamFinished = false ∧ st.doneEvent = none ∧ st.completed = false ∧
    st.doneCount = 0 ∧ st.delivered ++ st.tokenQueue ++ pend = toks) ∨
  (rest = [Step.finish] ∧ st.streamFinished = false ∧
    st.doneEvent = some d ∧ st.completed = false ∧ st.doneCount = 0 ∧
    st.delivered ++ st.tokenQueue = toks) ∨
  (rest = [] ∧ st.streamFinished = true ∧ st.draining = true ∧
    st.doneEvent = some d ∧ st.delivered ++ st.tokenQueue = toks ∧
    ((st.completed = false ∧ st.doneCount = 0) ∨
     (st.completed = true ∧ st.tokenQueue = [] ∧ st.doneCount = 1)))

/-- Sample `done` payload used by concrete runs. -/
def sampleDone : DoneData :=
  { metadata :=
      { model_used := "llama-3.1-8b-instant", classification := "simple",
        input_tokens := 100, output_tokens := 10, latency_ms := 500,
        chunks_retrieved := 2, evaluator_flags := [] },
    sources := [{ document := "a.pdf", page := 1, relevance_score := 9/10 }],
    conversation_id := "conv_1" }

/-- Sample upstream fragment parser standing for `JSON.parse` in concrete
runs: a finite vocabulary of payloads, everything else malformed. -/
def sampleParse : String → Option UpstreamEvent
  | "TOK_A" => some (UpstreamEvent.token "A")
  | "TOK_B" => some (UpstreamEvent.token "B")
  | "ERR_TIMEOUT" => some (UpstreamEvent.error "Request timed out")
  | "DONE" => some (UpstreamEvent.done sampleDone)
  | _ => none

/-- Sample chunk lists over exactly two and exactly three distinct
documents, for concrete resolver runs. -/
def chunksTwoDocs : List RetrievedChunk :=
  [⟨"a.pdf", 1, "x", 9/10⟩, ⟨"b.pdf", 1, "y", 8/10⟩, ⟨"a.pdf", 2, "z", 7/10⟩]

/-- Sample chunk list spanning three distinct documents. -/
def chunksThreeDocs : List RetrievedChunk :=
  [⟨"a.pdf", 1, "x", 9/10⟩, ⟨"b.pdf", 1, "y", 8/10⟩, ⟨"c.pdf", 2, "z", 7/10⟩]

/-- Over booleans, firing exactly one of the seven rules caps the
additive score at 2, below the threshold. -/
lemma single_signal_below_threshold :
    ∀ b1 b2 b3 b4 b5 b6 b7 : Bool,
      [b1, b2, b3, b4, b5, b6, b7].count true = 1 →
      (if b1 then 2 else 0) + (if b2 then 2 else 0) + (if b3 then 1 else 0) +
        (if b4 then 1 else 0) + (if b5 then 1 else 0) + (if b6 then 1 else 0) +
        (if b7 then 1 else 0) < 3 := by
  decide

/-- Claim C1: for every query, classify yields tier complex exactly when
the additive score over the seven rules reaches 3, and whenever exactly
one rule fires — even one worth +2 — the tier is fast: no single signal
alone crosses the threshold. -/
theorem classify_threshold_iff_and_single_signal (text : String) :
    ((classify text).2 = Tier.complex ↔ 3 ≤ (classify text).1) ∧
    (firedCount (normalize text) = 1 → (classify text).2 = Tier.fast) := by
  constructor
  · by_cases h : 3 ≤ score (normalize text) <;> simp [classify, h]
  · intro h1
    have h2 : score (normalize text) < 3 := by
      have := single_signal_below_threshold (signalLong (normalize text))
        (signalKeyword (normalize text)) (signalMultiQ (normalize text))
        (signalComparison (normalize text)) (signalNegation (normalize text))
        (signalSubclause (normalize text)) (signalMulti (normalize text))
        (by simpa [firedCount, firedSignals] using h1)
      simpa [score] using this
    simp [classify, Nat.not_le.mpr h2]

/-- Witness for C1: the query "why" fires exactly the complex-intent
keyword rule (+2) and is still routed fast. -/
theorem classify_threshold_iff_and_single_signal_witness :
    firedCount (normalize "why") = 1 ∧ (classify "why").2 = Tier.fast :=
  ⟨by decide,
   (classify_threshold_iff_and_single_signal "why").2 (by decide)⟩

/-- Claim C8 counterexample: the query "what? when?" has word count
below 15 and fires none of the keyword, comparison, negation, sub-clause
or multi-entity rules, yet its score is 1 (the multiple-question-marks
rule, omitted by the claim), not 0. -/
theorem short_plain_query_score_counterexample :
    wordCount (normalize "what? when?") < 15 ∧
    signalKeyword (normalize "what? when?") = false ∧
    signalComparison (normalize "what? when?") = false ∧
    signalNegation (normalize "what? when?") = false ∧
    signalSubclause (normalize "what? when?") = false ∧
    signalMulti (normalize "what? when?") = false ∧
    (classify "what? when?").1 = 1 ∧ ¬ (classify "what? when?").1 = 0 := by
  decide

/-- Claim C8 (amended): a query with word count below 15, no
complex-intent keyword, no comparison, negation, sub-clause or
multi-entity signal, and fewer than two question marks scores 0 and is
routed fast. -/
theorem short_plain_query_scores_zero (text : String)
    (hw : wordCount (normalize text) < 15)
    (hk : signalKeyword (normalize text) = false)
    (hc : signalComparison (normalize text) = false)
    (hn : signalNegation (normalize text) = false)
    (hs : signalSubclause (normalize text) = false)
    (hm : signalMulti (normalize text) = false)
    (hq : questionCount (normalize text) < 2) :
    (classify text).1 = 0 ∧ (classify text).2 = Tier.fast := by
  have h1 : signalLong (normalize text) = false := by
    simp only [signalLong, decide_eq_false_iff_not]
    omega
  have h3 : signalMultiQ (normalize text) = false := by
    simp only [signalMultiQ, decide_eq_false_iff_not]
    omega
  constructor
  · simp [classify, score, h1, hk, h3, hc, hn, hs, hm]
  · simp [classify, score, h1, hk, h3, hc, hn, hs, hm]

/-- Witness for the amended C8: the query "hello there" satisfies every
hypothesis and classifies as (0, fast). -/
theorem short_plain_query_scores_zero_witness :
    wordCount (normalize "hello there") < 15 ∧
    questionCount (normalize "hello there") < 2 ∧
    (classify "hello there").1 = 0 ∧ (classify "hello there").2 = Tier.fast := by
  refine ⟨by decide, by decide, ?_⟩
  exact short_plain_query_scores_zero "hello there" (by decide) (by decide)
    (by decide) (by decide) (by decide) (by decide) (by decide)

/-- Claim C9: the catalogued query fires the complex-intent keyword rule,
a comparison-word rule and the multi-entity rule, scores at least 3, and
is routed complex. -/
theorem pro_plan_query_is_complex :
    signalKeyword
        (normalize "Why does the Pro plan cost more and how does it compare to Basic?")
      = true ∧
    signalComparison
        (normalize "Why does the Pro plan cost more and how does it compare to Basic?")
      = true ∧
    signalMulti
        (normalize "Why does the Pro plan cost more and how does it compare to Basic?")
      = true ∧
    3 ≤ (classify "Why does the Pro plan cost more and how does it compare to Basic?").1 ∧
    (classify "Why does the Pro plan cost more and how does it compare to Basic?").2
      = Tier.complex := by
  decide

/-- Claim C2: resolve upgrades exactly when the initial tier is complex
or the chunks span at least three distinct documents; two distinct
documents leave fast untouched, three upgrade it, and complex can never
be downgraded. -/
theorem resolve_monotone_upgrade (initial : Tier)
    (chunks : List RetrievedChunk) :
    (resolve initial chunks = Tier.complex ↔
      initial = Tier.complex ∨ 3 ≤ distinctDocs chunks) ∧
    (initial = Tier.fast → distinctDocs chunks = 2 →
      resolve initial chunks = Tier.fast) ∧
    (initial = Tier.fast → distinctDocs chunks = 3 →
      resolve initial chunks = Tier.complex) ∧
    (initial = Tier.complex → resolve initial chunks = Tier.complex) := by
  cases initial <;> by_cases h : 3 ≤ distinctDocs chunks <;>
    simp [resolve, h] <;> omega

/-- Witness for C2 at concrete chunk lists with exactly two and exactly
three distinct documents. -/
theorem resolve_monotone_upgrade_witness :
    resolve Tier.fast chunksTwoDocs = Tier.fast ∧
    resolve Tier.fast chunksThreeDocs = Tier.complex ∧
    resolve Tier.complex chunksTwoDocs = Tier.complex :=
  ⟨(resolve_monotone_upgrade Tier.fast chunksTwoDocs).2.1 rfl (by decide),
   (resolve_monotone_upgrade Tier.fast chunksThreeDocs).2.2.1 rfl (by decide),
   (resolve_monotone_upgrade Tier.complex chunksTwoDocs).2.2.2 rfl⟩

/-- Membership of the low-grounding flag in an evaluator result depends
only on the similarity test: the first two flag segments never contain
it. -/
lemma lowGrounding_mem_evaluate (answer : String)
    (chunks : List RetrievedChunk) (sim : Rat) :
    Flag.lowGrounding ∈ evaluate answer chunks sim ↔
      sim < groundingThreshold := by
  unfold evaluate
  by_cases h1 : chunks.isEmpty <;>
    by_cases h2 : refusalPhrases.any (fun p => strContains (normalize answer) p) <;>
      by_cases h3 : sim < groundingThreshold <;>
        simp [h1, h2, h3]

/-- Claim C5: the low-grounding flag is present exactly when the cosine
similarity between the answer embedding and the concatenated-context
embedding falls below the 0.35 threshold; at similarity 0.34 it is
present and at 0.36 it is absent. -/
theorem low_grounding_threshold (answer : String)
    (chunks : List RetrievedChunk) (sim : Rat) :
    (Flag.lowGrounding ∈ evaluate answer chunks sim ↔ sim < 35 / 100) ∧
    Flag.lowGrounding ∈ evaluate answer chunks (34 / 100) ∧
    Flag.lowGrounding ∉ evaluate answer chunks (36 / 100) := by
  have hb : groundingThreshold = 35 / 100 := rfl
  refine ⟨by rw [lowGrounding_mem_evaluate, hb], ?_, ?_⟩
  · rw [lowGrounding_mem_evaluate, hb]
    norm_num
  · rw [lowGrounding_mem_evaluate, hb]
    norm_num

/-- Claim C6: a non-empty answer evaluated against an empty chunk list
always carries the no-context flag, and a turn whose retrieval failed
still completes, graded with zero chunks, so its flag set deterministically
contains no-context. -/
theorem no_context_on_empty_chunks (answer : String) (sim : Rat)
    (_hne : answer ≠ "") :
    Flag.noContext ∈ evaluate answer [] sim ∧
    ∀ e : CoreError, Flag.noContext ∈ turnFlags (Except.error e) answer sim := by
  constructor
  · unfold evaluate
    simp
  · intro e
    unfold turnFlags chunksAfterRetrieval evaluate
    simp

/-- Witness for C6: the non-empty answer "hi" with failed retrieval. -/
theorem no_context_on_empty_chunks_witness :
    "hi" ≠ "" ∧
    Flag.noContext ∈ evaluate "hi" [] 1 ∧
    Flag.noContext ∈
      turnFlags (Except.error CoreError.retrievalUnavailable) "hi" 1 :=
  ⟨by decide,
   (no_context_on_empty_chunks "hi" 1 (by decide)).1,
   (no_context_on_empty_chunks "hi" 1 (by decide)).2
     CoreError.retrievalUnavailable⟩

/-- A data line whose payload fails to parse leaves the read-loop state
unchanged (the local catch skips it). -/
lemma handleLine_skips_malformed (parse : String → Option UpstreamEvent)
    (st : StreamState) (bad : String)
    (hdata : headMatch "data: ".data bad.data = true)
    (hmal : parse (String.mk (bad.data.drop 6)) = none) :
    handleLine parse st bad = st := by
  unfold handleLine
  rw [if_pos hdata]
  by_cases h : String.mk (bad.data.drop 6) = ""
  · simp [h]
  · simp [h, hmal]

/-- Claim C7: a stream fragment that cannot be parsed is skipped — the
read loop over a stream containing it computes exactly the state of the
stream without it, so every remaining well-formed token event is still
delivered, nothing surfaces to the caller, and the stream is not
aborted. -/
theorem malformed_fragment_skipped (parse : String → Option UpstreamEvent)
    (pre post : List String) (bad : String)
    (hdata : headMatch "data: ".data bad.data = true)
    (hmal : parse (String.mk (bad.data.drop 6)) = none) :
    processLines parse (pre ++ bad :: post) = processLines parse (pre ++ post) := by
  unfold processLines
  rw [List.foldl_append, List.foldl_append, List.foldl_cons,
    handleLine_skips_malformed parse _ bad hdata hmal]

/-- Witness for C7: a garbage line between two token lines does not
change the processed stream state. -/
theorem malformed_fragment_skipped_witness :
    headMatch "data: ".data "data: GARBAGE".data = true ∧
    sampleParse (String.mk ("data: GARBAGE".data.drop 6)) = none ∧
    processLines sampleParse ["data: TOK_A", "data: GARBAGE", "data: TOK_B"] =
      processLines sampleParse ["data: TOK_A", "data: TOK_B"] :=
  ⟨by decide, by decide,
   malformed_fragment_skipped sampleParse ["data: TOK_A"] ["data: TOK_B"]
     "data: GARBAGE" (by decide) (by decide)⟩

/-- Claim C4 is violated by the code: in `sendMessage` the
`throw new Error(event.content)` for an upstream `error` event sits
inside the same `try` whose `catch (parseErr)` skips malformed lines, so
a streamed backend error is swallowed — processing a stream ending in an
error event is indistinguishable from processing one without it, no
`done` payload is recorded, and the turn ends with the partial answer
still displayed as a streaming, unflagged assistant message instead of
an error entry. -/
theorem streamed_error_event_swallowed :
    processLines sampleParse ["data: TOK_A", "data: ERR_TIMEOUT"] =
      processLines sampleParse ["data: TOK_A"] ∧
    (processLines sampleParse ["data: TOK_A", "data: ERR_TIMEOUT"]).doneEvent
      = none ∧
    turnOutcome (processLines sampleParse ["data: TOK_A", "data: ERR_TIMEOUT"])
        [userEntry "q", streamingEntry] =
      [userEntry "q",
       { role := "assistant", content := "A", streaming := true }] :=
  ⟨by decide, by decide, by decide⟩

/-- Message list at the start of a turn: the two appends of `sendMessage`
(App.jsx lines 94 and 99). -/
def turnStart (ms : List ChatMsg) (q : String) : List ChatMsg :=
  (ms ++ [userEntry q]) ++ [streamingEntry]

/-- Updating the last element of a list with a known last element. -/
lemma updateLast_concat (f : ChatMsg → ChatMsg) (l : List ChatMsg)
    (x : ChatMsg) : updateLast f (l ++ [x]) = l ++ [f x] := by
  simp [updateLast, List.getLast?_concat, List.dropLast_concat]

/-- Every in-turn update touches only the last entry: applied to a list
with last element `x`, it returns the same list with only `x` replaced,
and an assistant last entry stays an assistant entry. -/
lemma applyUpdate_concat (u : TurnUpdate) (l : List ChatMsg) (x : ChatMsg) :
    ∃ y, applyUpdate u (l ++ [x]) = l ++ [y] ∧
      (x.role = "assistant" → y.role = "assistant") := by
  cases u with
  | tokenUpd t =>
      exact ⟨_, updateLast_concat _ l x, fun h => h⟩
  | finalizeUpd d =>
      exact ⟨_, updateLast_concat _ l x, fun h => h⟩
  | errorUpd e =>
      by_cases hs : x.streaming
      · refine ⟨errorEntry e, ?_, fun _ => rfl⟩
        simp [applyUpdate, replaceLastIfStreaming, List.getLast?_concat,
          List.dropLast_concat, hs]
      · refine ⟨x, ?_, fun h => h⟩
        simp [applyUpdate, replaceLastIfStreaming, List.getLast?_concat, hs]

/-- Iterated in-turn updates also touch only the last entry. -/
lemma applyUpdates_concat (us : List TurnUpdate) :
    ∀ (l : List ChatMsg) (x : ChatMsg), ∃ y,
      applyUpdates us (l ++ [x]) = l ++ [y] ∧
      (x.role = "assistant" → y.role = "assistant") := by
  induction us with
  | nil => exact fun l x => ⟨x, rfl, fun h => h⟩
  | cons u us ih =>
      intro l x
      obtain ⟨y1, hy1, hr1⟩ := applyUpdate_concat u l x
      obtain ⟨y2, hy2, hr2⟩ := ih l y1
      refine ⟨y2, ?_, fun h => hr2 (hr1 h)⟩
      show applyUpdates us (applyUpdate u (l ++ [x])) = l ++ [y2]
      rw [hy1]
      exact hy2

/-- Claim C10: a `sendMessage` turn appends exactly two entries — the
user message, then one assistant entry — and every subsequent in-turn
update (token append, finalization, or error replacement) rewrites only
the final assistant entry; the earlier messages survive unchanged, in
order. -/
theorem sendMessage_turn_message_shape (ms : List ChatMsg) (q : String)
    (us : List TurnUpdate) :
    turnStart ms q = ms ++ [userEntry q, streamingEntry] ∧
    (turnStart ms q).length = ms.length + 2 ∧
    ∃ a, applyUpdates us (turnStart ms q) = ms ++ [userEntry q, a] ∧
      a.role = "assistant" := by
  refine ⟨by simp [turnStart], by simp [turnStart], ?_⟩
  obtain ⟨y, hy, hr⟩ :=
    applyUpdates_concat us (ms ++ [userEntry q]) streamingEntry
  refine ⟨y, ?_, hr rfl⟩
  rw [turnStart, hy]
  simp

/-- Prepend a producer step to a producer sequence; a tick adds
nothing. -/
def nonTickCons (a : Step) (rest : List Step) : List Step :=
  if a.isTick then rest else a :: rest

/-- The producer part of a cons schedule. -/
lemma nonTick_cons_append (a : Step) (q r : List Step) :
    nonTick (a :: q) ++ r = nonTickCons a (nonTick q ++ r) := by
  cases a <;> simp [nonTick, nonTickCons, Step.isTick]

/-- An interval firing preserves the drain invariant. -/
lemma phase_tick (toks : List String) (d : DoneData) (st : DrainState)
    (R : List Step) (h : Phase toks d st R) :
    Phase toks d (step st Step.tick) R := by
  rcases h with ⟨pend, hr, hsf, hde, hco, hdc, hinv⟩ |
    ⟨hr, hsf, hde, hco, hdc, hinv⟩ | ⟨hr, hsf, hdr, hde, hinv, hrest⟩
  · cases hdr : st.draining
    · have hstep : step st Step.tick = st := by
        simp [step, hdr]
      rw [hstep]
      exact Or.inl ⟨pend, hr, hsf, hde, hco, hdc, hinv⟩
    · cases hq : st.tokenQueue with
      | nil =>
          have hstep : step st Step.tick = st := by
            simp [step, hdr, hco, hq, hsf]
          rw [hstep]
          exact Or.inl ⟨pend, hr, hsf, hde, hco, hdc, hinv⟩
      | cons c rest =>
          have hstep : step st Step.tick =
              { st with tokenQueue := rest,
                        delivered := st.delivered ++ [c] } := by
            simp [step, hdr, hco, hq]
          rw [hstep]
          refine Or.inl ⟨pend, hr, hsf, hde, hco, hdc, ?_⟩
          rw [hq] at hinv
          simpa [List.append_assoc] using hinv
  · cases hdr : st.draining
    · have hstep : step st Step.tick = st := by
        simp [step, hdr]
      rw [hstep]
      exact Or.inr (Or.inl ⟨hr, hsf, hde, hco, hdc, hinv⟩)
    · cases hq : st.tokenQueue with
      | nil =>
          have hstep : step st Step.tick = st := by
            simp [step, hdr, hco, hq, hsf]
          rw [hstep]
          exact Or.inr (Or.inl ⟨hr, hsf, hde, hco, hdc, hinv⟩)
      | cons c rest =>
          have hstep : step st Step.tick =
              { st with tokenQueue := rest,
                        delivered := st.delivered ++ [c] } := by
            simp [step, hdr, hco, hq]
          rw [hstep]
          refine Or.inr (Or.inl ⟨hr, hsf, hde, hco, hdc, ?_⟩)
          rw [hq] at hinv
          simpa [List.append_assoc] using hinv
  · rcases hrest with ⟨hco, hdc⟩ | ⟨hco, hq, hdc⟩
    · cases hq : st.tokenQueue with
      | nil =>
          have hstep : step st Step.tick =
              { st with completed := true,
                        doneCount := st.doneCount + 1 } := by
            simp [step, hdr, hco, hq, hsf, hde]
          rw [hstep]
          refine Or.inr (Or.inr ⟨hr, hsf, hdr, hde, hinv, Or.inr ⟨rfl, hq, ?_⟩⟩)
          simp [hdc]
      | cons c rest =>
          have hstep : step st Step.tick =
              { st with tokenQueue := rest,
                        delivered := st.delivered ++ [c] } := by
            simp [step, hdr, hco, hq]
          rw [hstep]
          refine Or.inr (Or.inr ⟨hr, hsf, hdr, hde, ?_, Or.inl ⟨hco, hdc⟩⟩)
          rw [hq] at hinv
          simpa [List.append_assoc] using hinv
    · have hstep : step st Step.tick = st := by
        simp [step, hco]
      rw [hstep]
      exact Or.inr (Or.inr ⟨hr, hsf, hdr, hde, hinv, Or.inr ⟨hco, hq, hdc⟩⟩)

/-- A producer step consumes the matching head of the expected producer
sequence and preserves the drain invariant. -/
lemma phase_producer (toks : List String) (d : DoneData) (st : DrainState)
    (a : Step) (R : List Step) (hnt : a.isTick = false)
    (h : Phase toks d st (a :: R)) :
    Phase toks d (step st a) R := by
  cases a with
  | tick => simp [Step.isTick] at hnt
  | arrive c =>
      rcases h with ⟨pend, hr, hsf, hde, hco, hdc, hinv⟩ |
        ⟨hr, _⟩ | ⟨hr, _⟩
      · cases pend with
        | nil => simp at hr
        | cons p ps =>
            simp only [List.map_cons, List.cons_append, List.cons.injEq,
              Step.arrive.injEq] at hr
            obtain ⟨hcp, hR⟩ := hr
            refine Or.inl ⟨ps, hR, hsf, hde, hco, hdc, ?_⟩
            subst hcp
            simp only [step]
            rw [← hinv]
            simp [List.append_assoc]
      · simp at hr
      · simp at hr
  | arriveDone d2 =>
      rcases h with ⟨pend, hr, hsf, hde, hco, hdc, hinv⟩ |
        ⟨hr, _⟩ | ⟨hr, _⟩
      · cases pend with
        | nil =>
            simp only [List.map_nil, List.nil_append, List.cons.injEq,
              Step.arriveDone.injEq] at hr
            obtain ⟨hd2, hR⟩ := hr
            subst hd2
            refine Or.inr (Or.inl ⟨hR, hsf, rfl, hco, hdc, ?_⟩)
            simpa using hinv
        | cons p ps => simp at hr
      · simp at hr
      · simp at hr
  | finish =>
      rcases h with ⟨pend, hr, _⟩ | ⟨hr, hsf, hde, hco, hdc, hinv⟩ |
        ⟨hr, _⟩
      · cases pend with
        | nil => simp at hr
        | cons p ps => simp at hr
      · simp only [List.cons.injEq] at hr
        refine Or.inr (Or.inr ⟨hr.2, rfl, rfl, hde, hinv, Or.inl ⟨hco, hdc⟩⟩)
      · simp at hr

/-- Running a schedule consumes exactly its producer part from the
expected sequence, preserving the drain invariant. -/
lemma exec_phase (toks : List String) (d : DoneData) :
    ∀ (sched r : List Step) (st : DrainState),
      Phase toks d st (nonTick sched ++ r) → Phase toks d (exec sched st) r := by
  intro sched
  induction sched with
  | nil =>
      intro r st h
      simpa [exec, nonTick] using h
  | cons a q ih =>
      intro r st h
      rw [nonTick_cons_append] at h
      have hstep : Phase toks d (step st a) (nonTick q ++ r) := by
        cases a with
        | tick =>
            simp only [nonTickCons, Step.isTick, if_true] at h
            exact phase_tick toks d st _ h
        | arrive c =>
            simp [nonTickCons, Step.isTick] at h
            exact phase_producer toks d st _ _ rfl h
        | arriveDone d2 =>
            simp [nonTickCons, Step.isTick] at h
            exact phase_producer toks d st _ _ rfl h
        | finish =>
            simp [nonTickCons, Step.isTick] at h
            exact phase_producer toks d st _ _ rfl h
      have : exec (a :: q) st = exec q (step st a) := rfl
      rw [this]
      exact ih r (step st a) hstep

/-- Once the interval has cleared itself, further fuel changes
nothing. -/
lemma settleAux_completed (n : Nat) (st : DrainState)
    (h : st.completed = true) : settleAux n st = st := by
  cases n <;> simp [settleAux, h]

/-- With enough fuel, the interval empties the queue and then completes,
having delivered every token in order and emitted one completion. -/
lemma settleAux_drains (toks : List String) (d : DoneData) :
    ∀ (n : Nat) (st : DrainState), st.tokenQueue.length < n →
      st.streamFinished = true → st.draining = true →
      st.doneEvent = some d → st.delivered ++ st.tokenQueue = toks →
      ((st.completed = false ∧ st.doneCount = 0) ∨
       (st.completed = true ∧ st.tokenQueue = [] ∧ st.doneCount = 1)) →
      (settleAux n st).completed = true ∧
      (settleAux n st).delivered = toks ∧ (settleAux n st).doneCount = 1 := by
  intro n
  induction n with
  | zero => intro st hlen; omega
  | succ n ih =>
      intro st hlen hsf hdr hde hinv hrest
      rcases hrest with ⟨hco, hdc⟩ | ⟨hco, hq, hdc⟩
      · rw [settleAux, if_neg (by simp [hco])]
        cases hq : st.tokenQueue with
        | nil =>
            have hstep : step st Step.tick =
                { st with completed := true,
                          doneCount := st.doneCount + 1 } := by
              simp [step, hdr, hco, hq, hsf, hde]
            rw [hstep, settleAux_completed n _ rfl]
            refine ⟨rfl, ?_, by simp [hdc]⟩
            rw [hq] at hinv
            simpa using hinv
        | cons c rest =>
            have hstep : step st Step.tick =
                { st with tokenQueue := rest,
                          delivered := st.delivered ++ [c] } := by
              simp [step, hdr, hco, hq]
            rw [hstep]
            have hlen2 : rest.length < n := by
              rw [hq] at hlen
              simp at hlen
              omega
            refine ih _ hlen2 hsf hdr hde ?_ (Or.inl ⟨hco, hdc⟩)
            rw [hq] at hinv
            simpa [List.append_assoc] using hinv
      · rw [settleAux, if_pos hco]
        refine ⟨hco, ?_, hdc⟩
        rw [hq] at hinv
        simpa using hinv

/-- Claim C3: for every upstream of fragments `toks` (followed by its
`done` payload and the end of the stream) and every interleaving of
arrivals with drain-interval firings, the caller observes exactly the
fragments, in order, and exactly one completion event; at any prefix of
the run, no completion has been observed unless the queue already
drained every token, and completion is gated on the drained-empty queue,
not on the upstream end. -/
theorem stream_delivery_order_and_completion (toks : List String)
    (d : DoneData) (sched : List Step)
    (hv : ValidSchedule toks d sched) :
    ((settle (exec sched drainInit)).delivered = toks ∧
     (settle (exec sched drainInit)).doneCount = 1 ∧
     (settle (exec sched drainInit)).completed = true) ∧
    ∀ p q, sched = p ++ q →
      ((exec p drainInit).completed = true →
        (exec p drainInit).delivered = toks ∧
        (exec p drainInit).tokenQueue = []) ∧
      ((exec p drainInit).completed = false →
        (exec p drainInit).doneCount = 0) := by
  have h0 : Phase toks d drainInit
      (toks.map Step.arrive ++ [Step.arriveDone d, Step.finish]) :=
    Or.inl ⟨toks, rfl, rfl, rfl, rfl, rfl, by simp [drainInit]⟩
  constructor
  · have hfull : Phase toks d (exec sched drainInit) [] := by
      apply exec_phase
      rw [List.append_nil, hv]
      exact h0
    rcases hfull with ⟨pend, hr, _⟩ | ⟨hr, _⟩ |
      ⟨hr, hsf, hdr, hde, hinv, hrest⟩
    · exact absurd hr.symm (by simp)
    · exact absurd hr (by simp)
    · have := settleAux_drains toks d (exec sched drainInit).tokenQueue.length.succ
        (exec sched drainInit) (Nat.lt_succ_self _) hsf hdr hde hinv hrest
      exact ⟨this.2.1, this.2.2, this.1⟩
  · intro p q hpq
    have hpre : Phase toks d (exec p drainInit) (nonTick q) := by
      apply exec_phase
      have : nonTick p ++ nonTick q = nonTick sched := by
        rw [hpq, nonTick, nonTick, nonTick, List.filter_append]
      rw [this, hv]
      exact h0
    rcases hpre with ⟨pend, hr, hsf, hde, hco, hdc, hinv⟩ |
      ⟨hr, hsf, hde, hco, hdc, hinv⟩ | ⟨hr, hsf, hdr, hde, hinv, hrest⟩
    · exact ⟨fun hc => absurd hc (by simp [hco]), fun _ => hdc⟩
    · exact ⟨fun hc => absurd hc (by simp [hco]), fun _ => hdc⟩
    · rcases hrest with ⟨hco, hdc⟩ | ⟨hco, hq2, hdc⟩
      · exact ⟨fun hc => absurd hc (by simp [hco]), fun _ => hdc⟩
      · refine ⟨fun _ => ⟨?_, hq2⟩, fun hc => absurd hco (by simp [hc])⟩
        rw [hq2] at hinv
        simpa using hinv

/-- Concrete interleaved run used as the C3 witness. -/
def sampleSchedule : List Step :=
  [Step.arrive "Hel", Step.tick, Step.arrive "lo", Step.tick, Step.tick,
   Step.arriveDone sampleDone, Step.finish]

/-- Witness for C3: a two-fragment upstream with interleaved interval
firings delivers both fragments in order and completes exactly once. -/
theorem stream_delivery_order_and_completion_witness :
    (settle (exec sampleSchedule drainInit)).delivered = ["Hel", "lo"] ∧
    (settle (exec sampleSchedule drainInit)).doneCount = 1 ∧
    (settle (exec sampleSchedule drainInit)).completed = true :=
  (stream_delivery_order_and_completion ["Hel", "lo"] sampleDone
    sampleSchedule (by unfold ValidSchedule; rfl)).1

end ClearPath
